import Mathlib

/-!
# Verification of the geocache token-crafting game (`src/main.ts`)

A shallow embedding of the game's core logic in Lean 4.  JavaScript
numbers are modelled as exact rationals (`ℚ`), integer grid indices as
`ℤ`, and the external pseudo-random collaborator `luck` as an arbitrary
function `String → ℚ` (its contract: values in `[0, 1)`).  Fallible or
throwing code paths are modelled with `Except`/`Option` and explicit
result flags.  Each definition mirrors the TypeScript source; line
references point into `src/main.ts`.
-/

namespace Geocache

/-! ## Game constants (`src/main.ts` lines 13-17) -/

def TILE_DEGREES : ℚ := 1 / 10000

def INTERACT_RANGE : ℤ := 3

def VIEWPORT_RADIUS : ℤ := 50

def TARGET_VALUE : ℚ := 64

def CACHE_SPAWN_PROBABILITY : ℚ := 1 / 10

/-! ## Cell data type (lines 32-35) -/

structure Cell where
  i : ℤ
  j : ℤ
deriving DecidableEq, Repr

/-- `cellKey` (lines 282-284): the string `"i,j"` used as the key of a cell in
the `cacheStates` and `activeCaches` maps. -/
def cellKey (c : Cell) : String := toString c.i ++ "," ++ toString c.j

/-- A latitude/longitude pair with exact rational components. -/
structure LatLng where
  lat : ℚ
  lng : ℚ
deriving DecidableEq, Repr

/-- `latLngToCell` (lines 286-291): floor-divide each axis by the tile size. -/
def latLngToCell (p : LatLng) : Cell :=
  ⟨⌊p.lat / TILE_DEGREES⌋, ⌊p.lng / TILE_DEGREES⌋⟩

/-- `cellToLatLng` (lines 293-298): multiply each index by the tile size. -/
def cellToLatLng (c : Cell) : LatLng :=
  ⟨(c.i : ℚ) * TILE_DEGREES, (c.j : ℚ) * TILE_DEGREES⟩

/-- `canInteract` (lines 306-310): both axis distances to the player must be
at most `INTERACT_RANGE`. -/
def canInteract (playerCell cell : Cell) : Bool :=
  decide (|cell.i - playerCell.i| ≤ INTERACT_RANGE) &&
    decide (|cell.j - playerCell.j| ≤ INTERACT_RANGE)

/-! ## Deterministic generator (lines 312-317 and 338-341)

`luck` is the external pseudo-random collaborator: a deterministic
function from string keys to floats in `[0, 1)`. -/

/-- The type of the external `luck` collaborator. -/
def Luck : Type := String → ℚ

/-- The collaborator contract: every key maps into `[0, 1)`. -/
def LuckValid (luck : Luck) : Prop := ∀ k, 0 ≤ luck k ∧ luck k < 1

/-- The key string `"i,j,value"` used by `determineCacheValue` (line 314). -/
def valueKey (c : Cell) : String := cellKey c ++ ",value"

/-- The key string `"i,j,spawn"` used by `shouldSpawnCache` (line 339). -/
def spawnKey (c : Cell) : String := cellKey c ++ ",spawn"

/-- `determineCacheValue` (lines 312-317): the value seed is
`luck("i,j,value")`, the exponent is `1 + floor(seed * 3)`, the value is
`2 ^` that exponent. -/
def determineCacheValue (luck : Luck) (c : Cell) : ℚ :=
  (2 : ℚ) ^ (1 + ⌊luck (valueKey c) * 3⌋)

/-- `shouldSpawnCache` (lines 338-341). -/
def shouldSpawnCache (luck : Luck) (c : Cell) : Bool :=
  decide (luck (spawnKey c) < CACHE_SPAWN_PROBABILITY)

/-! ## Cache state store (lines 193, 319-336)

`cacheStates` is a JavaScript `Map<string, CacheState>`; we model it as
an association list with `Map.set` semantics (replace in place when the
key is present, append otherwise), which preserves the `Map`'s
insertion-order iteration. A `CacheState` record `{ value }` is
flattened to its single rational field. -/

/-- `Map.set` semantics on the string-keyed store. -/
def mapSet : List (String × ℚ) → String → ℚ → List (String × ℚ)
  | [], k, v => [(k, v)]
  | (k', v') :: rest, k, v =>
    if k' = k then (k', v) :: rest else (k', v') :: mapSet rest k v

/-- `getCacheValue` (lines 319-330): the stored override if present, else the
deterministic initial value. -/
def getCacheValue (luck : Luck) (states : List (String × ℚ)) (c : Cell) : ℚ :=
  match states.lookup (cellKey c) with
  | some v => v
  | none => determineCacheValue luck c

/-- `setCacheValue` (lines 332-336): write an override unconditionally. -/
def setCacheValue (states : List (String × ℚ)) (c : Cell) (value : ℚ) :
    List (String × ℚ) :=
  mapSet states (cellKey c) value

/-- The effective-value lookup realized by `createCacheVisual`
(lines 366-378): the spawn gate comes first (line 373, a cell that never
spawns gets no cache and is never interactable), then the stored-or-initial
value (line 378). `none` is the "no cache here" result. -/
def effectiveCacheValue (luck : Luck) (states : List (String × ℚ)) (c : Cell) :
    Option ℚ :=
  if shouldSpawnCache luck c then some (getCacheValue luck states c) else none

/-! ## Interaction engine (`handleInteraction`, lines 422-466)

`handleInteraction` is a closure over one cache's current `cacheValue`,
the global `playerInventory` and the global `cacheStates`; it mutates all
three.  We model it as a pure function from those inputs to an outcome
record, together with a tag saying which branch fired. -/

inductive InteractionResult where
  | outOfRange
  | pickup
  | craft
  | place
  | noOp
deriving DecidableEq, Repr

structure InteractionOutcome where
  result : InteractionResult
  cacheValue : ℚ
  playerInventory : Option ℚ
  cacheStates : List (String × ℚ)
deriving DecidableEq, Repr

/-- `handleInteraction` (lines 422-466).  The guards appear in source
order: range gate (line 424), pickup (line 430), craft (lines 441-444),
place (line 455), otherwise no-op (line 465).  In the craft and place
branches the guard guarantees `playerInventory ≠ none`, so `Option.getD`
extracts exactly the held value the source reads. -/
def handleInteraction (playerCell cell : Cell) (cacheValue : ℚ)
    (playerInventory : Option ℚ) (cacheStates : List (String × ℚ)) :
    InteractionOutcome :=
  if ¬ canInteract playerCell cell then
    ⟨.outOfRange, cacheValue, playerInventory, cacheStates⟩
  else if playerInventory = none ∧ 0 < cacheValue then
    ⟨.pickup, 0, some cacheValue, setCacheValue cacheStates cell 0⟩
  else if playerInventory ≠ none ∧ 0 < cacheValue ∧
      playerInventory = some cacheValue then
    ⟨.craft, playerInventory.getD 0 * 2, none,
      setCacheValue cacheStates cell (playerInventory.getD 0 * 2)⟩
  else if playerInventory ≠ none ∧ cacheValue = 0 then
    ⟨.place, playerInventory.getD 0, none,
      setCacheValue cacheStates cell (playerInventory.getD 0)⟩
  else
    ⟨.noOp, cacheValue, playerInventory, cacheStates⟩

/-- `updateStatusPanel` (lines 346-361) renders the victory message iff the
inventory is non-null and at least `TARGET_VALUE`; this boolean is whether
the victory message is shown. -/
def victorySignal (playerInventory : Option ℚ) : Bool :=
  match playerInventory with
  | none => false
  | some v => decide (TARGET_VALUE ≤ v)

/-! ## Active cell manager (lines 196-200, 366-378, 488-539)

`activeCaches` is a `Map<string, {rect, marker, cell}>`; the `rect` and
`marker` handles are external rendering objects, so an entry is modelled
by its key and its `cell` field.  The combined mutable state visible to
the manager is the pair of the override store and the active map. -/

structure ManagerState where
  cacheStates : List (String × ℚ)
  activeCaches : List (String × Cell)
deriving DecidableEq, Repr

/-- The effect of `createCacheVisual` (lines 366-406) on `activeCaches`:
skip if the key is already active (line 370), skip if the cell does not
spawn (line 373); otherwise read `getCacheValue` for the label (line 378,
no state effect) and `Map.set` the new entry (line 406).  `cacheStates`
is only read, never written. -/
def createCacheVisual (luck : Luck) (active : List (String × Cell))
    (cell : Cell) : List (String × Cell) :=
  if active.any (fun kv => kv.1 == cellKey cell) then active
  else if ¬ shouldSpawnCache luck cell then active
  else active ++ [(cellKey cell, cell)]

/-- `removeCacheVisual` (lines 488-497): remove the external rect/marker
and delete the entry; the override store is untouched. -/
def removeCacheVisual (st : ManagerState) (cell : Cell) : ManagerState :=
  match st.activeCaches.lookup (cellKey cell) with
  | some _ =>
      { st with activeCaches :=
          st.activeCaches.eraseP (fun kv => kv.1 == cellKey cell) }
  | none => st

/-- The integer range `lo, lo+1, ..., hi` of a source `for` loop. -/
def intRange (lo hi : ℤ) : List ℤ :=
  (List.range (hi + 1 - lo).toNat).map (fun n : ℕ => lo + (n : ℤ))

/-- `getVisibleCells` (lines 499-522): all cells in the viewport rectangle
expanded by `VIEWPORT_RADIUS`, outer loop over `i`, inner over `j`.  The
map bounds are external; the function is parametrized by the two corner
cells the source computes from them. -/
def getVisibleCells (nwCell seCell : Cell) : List Cell :=
  (intRange (nwCell.i - VIEWPORT_RADIUS) (seCell.i + VIEWPORT_RADIUS)).flatMap
    (fun i =>
      (intRange (nwCell.j - VIEWPORT_RADIUS) (seCell.j + VIEWPORT_RADIUS)).map
        (fun j => ⟨i, j⟩))

/-- `regenerateCaches` (lines 524-539): first delete every active entry
whose key is outside the visible set (`Map` iteration with concurrent
delete nets out to a filter), then run `createCacheVisual` over every
visible cell in order. -/
def regenerateCaches (luck : Luck) (nwCell seCell : Cell)
    (st : ManagerState) : ManagerState :=
  let visibleCells := getVisibleCells nwCell seCell
  let visibleKeys := visibleCells.map cellKey
  let afterRemove := st.activeCaches.filter (fun kv => visibleKeys.contains kv.1)
  { st with
    activeCaches := visibleCells.foldl (createCacheVisual luck) afterRemove }

/-- Modelled from the spec's words (§4.4/§8, for comparison with the code):
"a cache exists per the Cache State Store" at a cell iff an override is
present, or no override exists and the spawn roll is below the spawn
probability. -/
def specCacheExists (luck : Luck) (states : List (String × ℚ)) (c : Cell) :
    Bool :=
  (states.lookup (cellKey c)).isSome || shouldSpawnCache luck c

/-! ## Persistence layer (lines 214-252)

`loadGameState` runs `JSON.parse` on the stored blob and assigns the
result's fields to the globals with no shape validation, so the model
works at the level of untyped JavaScript values.  `JVal.undefined` is the
JavaScript `undefined` produced by a missing property (never produced by
`JSON.parse` itself).  `JSON.parse` resolves duplicate object keys
last-wins, so a parsed object is represented with its keys already
deduplicated. -/

inductive JVal where
  | null
  | undefined
  | bool (b : Bool)
  | num (q : ℚ)
  | str (s : String)
  | arr (elems : List JVal)
  | obj (fields : List (String × JVal))

/-- The three mutable globals `loadGameState` assigns (lines 203-206, 193):
`playerCell`, `playerInventory` and the entries of the `cacheStates` map.
After a malformed load they can hold arbitrary JavaScript values, hence
the untyped fields. -/
structure JSGameState where
  playerCell : JVal
  playerInventory : JVal
  cacheStates : List (JVal × JVal)

/-- What `localStorage.getItem` + `JSON.parse` yields: no blob stored
(or the falsy empty string, line 231), a blob `JSON.parse` throws on
(caught at line 248 before any mutation), or a parsed value. -/
inductive Stored where
  | absent
  | unparseable
  | parsed (v : JVal)

/-- JavaScript property read `v[k]`: a `TypeError` (modelled as `.error`)
on `null`/`undefined` receivers, the field or `undefined` on objects,
`undefined` on other primitives (ignoring prototype properties, which the
read fields never hit). -/
def jsGetField : JVal → String → Except Unit JVal
  | .null, _ => .error ()
  | .undefined, _ => .error ()
  | .obj fields, k => .ok ((fields.lookup k).getD .undefined)
  | _, _ => .ok .undefined

/-- `Map` key equality (SameValueZero).  Parsed JSON trees share no
references, so two array/object nodes are never the same key. -/
def jsSameValueZero : JVal → JVal → Bool
  | .null, .null => true
  | .undefined, .undefined => true
  | .bool a, .bool b => a = b
  | .num a, .num b => a = b
  | .str a, .str b => a = b
  | _, _ => false

/-- `Map.set` with JavaScript key equality. -/
def mapSetJS : List (JVal × JVal) → JVal → JVal → List (JVal × JVal)
  | [], k, v => [(k, v)]
  | (k', v') :: rest, k, v =>
    if jsSameValueZero k' k then (k', v) :: rest
    else (k', v') :: mapSetJS rest k v

/-- The destructuring `[key, value] = entry` (line 238): arrays and
strings are the only iterable JSON values; anything else is a
`TypeError`.  String iteration yields one-character strings, `undefined`
past the end. -/
def destructurePair : JVal → Except Unit (JVal × JVal)
  | .arr l => .ok (l.getD 0 .undefined, l.getD 1 .undefined)
  | .str s => .ok
      (((s.data.get? 0).map (fun c => JVal.str c.toString)).getD .undefined,
       ((s.data.get? 1).map (fun c => JVal.str c.toString)).getD .undefined)
  | _ => .error ()

/-- The `state.cacheStates.forEach` loop (lines 238-240).  A `TypeError`
on a non-iterable entry aborts mid-loop with the partially filled map
already applied (`.error` carries it). -/
def setEntries : List JVal → List (JVal × JVal) →
    Except (List (JVal × JVal)) (List (JVal × JVal))
  | [], m => .ok m
  | e :: rest, m =>
    match destructurePair e with
    | .error _ => .error m
    | .ok (k, v) => setEntries rest (mapSetJS m k v)

/-- JavaScript string-to-number coercion, restricted to the empty string
and optionally-signed decimal integer literals; other strings (decimals,
exponents, padding) are conservatively mapped to `NaN` (`none`) — no
theorem below exercises them. -/
def jsStringToNumber (s : String) : Option ℚ :=
  if s = "" then some 0
  else
    let (sign, digits) :=
      match s.data with
      | '-' :: rest => ((-1 : ℚ), rest)
      | l => ((1 : ℚ), l)
    if digits ≠ [] ∧ digits.all (fun c => c.isDigit) then
      some (sign * (digits.foldl (fun acc c => 10 * acc + (c.toNat - 48)) 0 : ℕ))
    else none

/-- JavaScript number coercion of a value, `none` for `NaN`.  Array and
object coercion (via `toPrimitive` strings) is conservatively `NaN` except
for plain objects, where `"[object Object]"` really is `NaN` — no theorem
below exercises the array case. -/
def jsToNumber : JVal → Option ℚ
  | .null => some 0
  | .undefined => none
  | .bool b => some (if b then 1 else 0)
  | .num q => some q
  | .str s => jsStringToNumber s
  | .arr _ => none
  | .obj _ => none

/-- The `cellToLatLng(playerCell)` call at line 243 on an untyped
`playerCell`: `.i`/`.j` reads throw on `null`/`undefined` receivers; the
products `cell.i * TILE_DEGREES` coerce to numbers; `leaflet.latLng`
(line 297) throws `Invalid LatLng` on a `NaN` component. -/
def jsCellToLatLng (pc : JVal) : Except Unit (ℚ × ℚ) :=
  match jsGetField pc "i", jsGetField pc "j" with
  | .ok fi, .ok fj =>
    match jsToNumber fi, jsToNumber fj with
    | some a, some b => .ok (a * TILE_DEGREES, b * TILE_DEGREES)
    | _, _ => .error ()
  | _, _ => .error ()

/-- `loadGameState` (lines 229-252).  The `try` block assigns
`playerCell` and `playerInventory`, clears the `cacheStates` map, refills
it from `state.cacheStates`, then recomputes the player position; any
throw is caught (line 248) and `false` returned with whatever mutations
already happened left in place.  The marker/map updates (lines 244-245)
are external rendering effects. -/
def loadGameState (stored : Stored) (st : JSGameState) : Bool × JSGameState :=
  match stored with
  | .absent => (false, st)
  | .unparseable => (false, st)
  | .parsed v =>
    match jsGetField v "playerCell" with
    | .error _ => (false, st)
    | .ok pc =>
      match jsGetField v "playerInventory", jsGetField v "cacheStates" with
      | .ok inv, .ok cs =>
        let st1 : JSGameState := ⟨pc, inv, []⟩
        match cs with
        | .arr entries =>
          match setEntries entries [] with
          | .error partialMap => (false, { st1 with cacheStates := partialMap })
          | .ok m =>
            let st2 := { st1 with cacheStates := m }
            match jsCellToLatLng pc with
            | .error _ => (false, st2)
            | .ok _ => (true, st2)
        | _ => (false, st1)
      | _, _ => (false, st)

/-- `saveGameState` (lines 220-227) builds
`{ playerCell, playerInventory, cacheStates: Array.from(entries) }` and
`JSON.stringify`s it.  `JSON.parse ∘ JSON.stringify` is the identity on
this fragment (finite numbers, strings, arrays, plain objects, null), so
the serialized blob is modelled directly at the parsed-`JVal` level.
The arguments are a well-typed game state as the running game maintains
it: an integer player cell, an optional rational inventory, and the
string-keyed override entries in map order. -/
def serializeGameState (pc : Cell) (inv : Option ℚ)
    (states : List (String × ℚ)) : JVal :=
  .obj [("playerCell", .obj [("i", .num pc.i), ("j", .num pc.j)]),
        ("playerInventory", match inv with | none => .null | some q => .num q),
        ("cacheStates",
          .arr (states.map (fun kv =>
            .arr [.str kv.1, .obj [("value", .num kv.2)]])))]

/-- The image of a well-typed game state inside the untyped globals. -/
def toJSState (pc : Cell) (inv : Option ℚ) (states : List (String × ℚ)) :
    JSGameState :=
  ⟨.obj [("i", .num pc.i), ("j", .num pc.j)],
   (match inv with | none => .null | some q => .num q),
   states.map (fun kv => (.str kv.1, .obj [("value", .num kv.2)]))⟩

/-! ## Decimal digit strings

`cellKey` builds `"i,j"` with `toString : ℤ → String`; reasoning about
key collisions needs that this decimal printing is injective and
comma-free.  `natDigits` is a fuel-free restatement of core's
`Nat.toDigitsCore` printing loop. -/

/-- The decimal digit list of a natural number, most significant first. -/
def natDigits (n : ℕ) : List Char :=
  if h : n < 10 then [Nat.digitChar n]
  else natDigits (n / 10) ++ [Nat.digitChar (n % 10)]
decreasing_by exact Nat.div_lt_self (by omega) (by omega)

/-- Reading a digit list back as a natural number. -/
def digitsVal (l : List Char) : ℕ :=
  l.foldl (fun acc c => 10 * acc + (c.toNat - 48)) 0

/-! ## Helper lemmas -/

theorem digitChar_toNat : ∀ m, m < 10 → (Nat.digitChar m).toNat = m + 48 := by
  decide

theorem digitChar_bounds : ∀ m, m < 10 →
    48 ≤ (Nat.digitChar m).toNat ∧ (Nat.digitChar m).toNat ≤ 57 := by
  decide

theorem natDigits_bounds (n : ℕ) :
    ∀ c ∈ natDigits n, 48 ≤ c.toNat ∧ c.toNat ≤ 57 := by
  induction n using Nat.strong_induction_on with
  | _ n ih =>
    rw [natDigits]
    by_cases h : n < 10
    · rw [dif_pos h]
      intro c hc
      rw [List.mem_singleton] at hc
      subst hc
      exact digitChar_bounds n h
    · rw [dif_neg h]
      intro c hc
      rcases List.mem_append.mp hc with h1 | h2
      · exact ih (n / 10) (Nat.div_lt_self (by omega) (by omega)) c h1
      · rw [List.mem_singleton] at h2
        subst h2
        exact digitChar_bounds (n % 10) (Nat.mod_lt _ (by omega))

theorem natDigits_ne_nil (n : ℕ) : natDigits n ≠ [] := by
  rw [natDigits]
  by_cases h : n < 10
  · rw [dif_pos h]; simp
  · rw [dif_neg h]; simp

theorem natDigits_val (n : ℕ) : digitsVal (natDigits n) = n := by
  induction n using Nat.strong_induction_on with
  | _ n ih =>
    rw [natDigits]
    by_cases h : n < 10
    · rw [dif_pos h]
      simp [digitsVal, digitChar_toNat n h]
    · rw [dif_neg h]
      have hrec := ih (n / 10) (Nat.div_lt_self (by omega) (by omega))
      simp only [digitsVal, List.foldl_append] at *
      rw [hrec, List.foldl_cons, List.foldl_nil,
        digitChar_toNat (n % 10) (Nat.mod_lt _ (by omega))]
      omega

theorem natDigits_injective {m n : ℕ} (h : natDigits m = natDigits n) :
    m = n := by
  have := congrArg digitsVal h
  rwa [natDigits_val, natDigits_val] at this

theorem toDigitsCore_eq_natDigits (n : ℕ) : ∀ (fuel : ℕ) (ds : List Char),
    n < fuel → Nat.toDigitsCore 10 fuel n ds = natDigits n ++ ds := by
  induction n using Nat.strong_induction_on with
  | _ n ih =>
    intro fuel ds hfuel
    cases fuel with
    | zero => omega
    | succ f =>
      rw [Nat.toDigitsCore]
      by_cases h10 : n / 10 = 0
      · rw [if_pos h10]
        have hn : n % 10 = n := by omega
        have hrhs : natDigits n = [Nat.digitChar n] := by
          rw [natDigits, dif_pos (by omega)]
        rw [hn, hrhs]
        simp
      · rw [if_neg h10,
          ih (n / 10) (Nat.div_lt_self (by omega) (by omega)) f
            (Nat.digitChar (n % 10) :: ds) (by omega)]
        have hrhs : natDigits n =
            natDigits (n / 10) ++ [Nat.digitChar (n % 10)] := by
          conv_lhs => rw [natDigits]
          rw [dif_neg (by omega)]
        rw [hrhs]
        simp

theorem nat_repr_data (n : ℕ) : (Nat.repr n).data = natDigits n := by
  rw [Nat.repr, Nat.toDigits,
    toDigitsCore_eq_natDigits n (n + 1) [] (by omega)]
  simp [List.asString]

theorem nat_repr_injective {m n : ℕ} (h : Nat.repr m = Nat.repr n) : m = n :=
  natDigits_injective (by rw [← nat_repr_data, ← nat_repr_data, h])

theorem int_toString_ofNat (m : ℕ) :
    toString (Int.ofNat m) = Nat.repr m := rfl

theorem int_toString_negSucc (m : ℕ) :
    toString (Int.negSucc m) = "-" ++ Nat.repr (m + 1) := rfl

theorem int_toString_no_comma (i : ℤ) : ',' ∉ (toString i).data := by
  cases i with
  | ofNat m =>
    rw [int_toString_ofNat, nat_repr_data]
    intro hc
    exact absurd (natDigits_bounds m ',' hc) (by decide)
  | negSucc m =>
    rw [int_toString_negSucc]
    intro hc
    rw [String.data_append] at hc
    rcases List.mem_append.mp hc with h1 | h2
    · simp at h1
    · rw [nat_repr_data] at h2
      exact absurd (natDigits_bounds (m + 1) ',' h2) (by decide)

theorem int_toString_injective {i j : ℤ} (h : toString i = toString j) :
    i = j := by
  cases i with
  | ofNat m =>
    cases j with
    | ofNat n => exact congrArg Int.ofNat (nat_repr_injective h)
    | negSucc n =>
      exfalso
      rw [int_toString_ofNat, int_toString_negSucc] at h
      have hd := congrArg String.data h
      rw [String.data_append, nat_repr_data, nat_repr_data] at hd
      cases hm : natDigits m with
      | nil => exact natDigits_ne_nil m hm
      | cons c t =>
        rw [hm] at hd
        have hc : c = '-' := by
          have := List.head_eq_of_cons_eq hd
          simpa using this
        have hb := natDigits_bounds m c (by rw [hm]; exact List.mem_cons_self c t)
        rw [hc] at hb
        exact absurd hb (by decide)
  | negSucc m =>
    cases j with
    | ofNat n =>
      exfalso
      rw [int_toString_negSucc, int_toString_ofNat] at h
      have hd := congrArg String.data h
      rw [String.data_append, nat_repr_data, nat_repr_data] at hd
      cases hn : natDigits n with
      | nil => exact natDigits_ne_nil n hn
      | cons c t =>
        rw [hn] at hd
        have hc : c = '-' := by
          have := List.head_eq_of_cons_eq hd.symm
          simpa using this
        have hb := natDigits_bounds n c (by rw [hn]; exact List.mem_cons_self c t)
        rw [hc] at hb
        exact absurd hb (by decide)
    | negSucc n =>
      rw [int_toString_negSucc, int_toString_negSucc] at h
      have hd := congrArg String.data h
      rw [String.data_append, String.data_append, nat_repr_data,
        nat_repr_data] at hd
      have heq : natDigits (m + 1) = natDigits (n + 1) :=
        List.append_cancel_left hd
      have hmn : m = n := by have := natDigits_injective heq; omega
      rw [hmn]

theorem append_comma_cancel :
    ∀ (l1 l2 r1 r2 : List Char), ',' ∉ l1 → ',' ∉ l2 →
      l1 ++ ',' :: r1 = l2 ++ ',' :: r2 → l1 = l2 ∧ r1 = r2 := by
  intro l1
  induction l1 with
  | nil =>
    intro l2 r1 r2 _ h2 h
    cases l2 with
    | nil => simpa using h
    | cons b t =>
      exfalso
      simp only [List.nil_append, List.cons_append, List.cons.injEq] at h
      exact h2 (h.1 ▸ List.mem_cons_self b t)
  | cons a s ih =>
    intro l2 r1 r2 h1 h2 h
    cases l2 with
    | nil =>
      exfalso
      simp only [List.nil_append, List.cons_append, List.cons.injEq] at h
      exact h1 (h.1.symm ▸ List.mem_cons_self a s)
    | cons b t =>
      simp only [List.cons_append, List.cons.injEq] at h
      obtain ⟨hab, hrest⟩ := h
      have := ih t r1 r2 (fun hm => h1 (List.mem_cons_of_mem a hm))
        (fun hm => h2 (List.mem_cons_of_mem b hm)) hrest
      exact ⟨by rw [hab, this.1], this.2⟩

theorem cellKey_injective : Function.Injective cellKey := by
  intro c c' h
  unfold cellKey at h
  have hd := congrArg String.data h
  simp only [String.data_append] at hd
  rw [List.append_assoc, List.append_assoc] at hd
  simp only [List.singleton_append] at hd
  obtain ⟨hi, hj⟩ := append_comma_cancel _ _ _ _
    (int_toString_no_comma c.i) (int_toString_no_comma c'.i) hd
  have h1 : c.i = c'.i := int_toString_injective (String.ext hi)
  have h2 : c.j = c'.j := int_toString_injective (String.ext hj)
  cases c
  cases c'
  simp_all

/-- `canInteract` is exactly the Chebyshev-distance bound. -/
theorem canInteract_iff (playerCell cell : Cell) :
    canInteract playerCell cell = true ↔
      max |cell.i - playerCell.i| |cell.j - playerCell.j| ≤ INTERACT_RANGE := by
  simp [canInteract, max_le_iff]

/-- `victorySignal` fires exactly on a held value at least `TARGET_VALUE`. -/
theorem victorySignal_iff (inv : Option ℚ) :
    victorySignal inv = true ↔ ∃ v, inv = some v ∧ TARGET_VALUE ≤ v := by
  cases inv <;> simp [victorySignal]

/-! ## Claim theorems -/

/-- C6: for every cell with integer coordinates, including negative ones,
converting the cell to its anchor position and back yields the same cell:
`latLngToCell (cellToLatLng c) = c`. -/
theorem c6_coordinate_roundtrip (c : Cell) : latLngToCell (cellToLatLng c) = c := by
  have ht : TILE_DEGREES ≠ 0 := by norm_num [TILE_DEGREES]
  simp [latLngToCell, cellToLatLng, mul_div_cancel_right₀ _ ht]

/-- C2: an interaction attempt results in `OutOfRange` exactly when the
Chebyshev distance between the clicked cell and the player exceeds
`INTERACT_RANGE` (so distance `INTERACT_RANGE` proceeds and distance
`INTERACT_RANGE + 1` does not), and an `OutOfRange` result changes
neither the cell value, the held token, nor the override store. -/
theorem c2_range_gating (playerCell cell : Cell) (cacheValue : ℚ)
    (inv : Option ℚ) (states : List (String × ℚ)) :
    ((handleInteraction playerCell cell cacheValue inv states).result =
        .outOfRange ↔
      INTERACT_RANGE < max |cell.i - playerCell.i| |cell.j - playerCell.j|) ∧
    ((handleInteraction playerCell cell cacheValue inv states).result =
        .outOfRange →
      handleInteraction playerCell cell cacheValue inv states =
        ⟨.outOfRange, cacheValue, inv, states⟩) := by
  unfold handleInteraction
  by_cases h : canInteract playerCell cell = true
  · rw [if_neg (by simp [h])]
    have hr := not_lt.mpr ((canInteract_iff playerCell cell).mp h)
    split_ifs <;> simp_all
  · rw [if_pos (by simp [h])]
    have hr : INTERACT_RANGE <
        max |cell.i - playerCell.i| |cell.j - playerCell.j| :=
      lt_of_not_le (fun hle => h ((canInteract_iff playerCell cell).mpr hle))
    simp [hr]

/-- C2 witness: at distance 4 from the player the interaction is rejected
unchanged; at distance 3 it proceeds. -/
theorem c2_range_gating_witness :
    (handleInteraction ⟨0, 0⟩ ⟨4, 0⟩ 5 none []).result = .outOfRange ∧
    handleInteraction ⟨0, 0⟩ ⟨4, 0⟩ 5 none [] = ⟨.outOfRange, 5, none, []⟩ ∧
    (handleInteraction ⟨0, 0⟩ ⟨3, 0⟩ 5 none []).result ≠ .outOfRange := by
  have h4 := c2_range_gating ⟨0, 0⟩ ⟨4, 0⟩ 5 none []
  have h3 := c2_range_gating ⟨0, 0⟩ ⟨3, 0⟩ 5 none []
  refine ⟨h4.1.mpr (by decide), h4.2 (h4.1.mpr (by decide)), fun hcon => ?_⟩
  exact absurd (h3.1.mp hcon) (by decide)

/-- C4: within interaction range, a craft fires exactly when a token is
held, the cell value is positive and the held value equals it; the craft
doubles the held value into the cell, empties the hand and writes the
result to the override store. -/
theorem c4_craft (playerCell cell : Cell) (cacheValue : ℚ) (inv : Option ℚ)
    (states : List (String × ℚ)) (hin : canInteract playerCell cell = true) :
    ((handleInteraction playerCell cell cacheValue inv states).result = .craft ↔
      inv ≠ none ∧ 0 < cacheValue ∧ inv = some cacheValue) ∧
    (∀ h : ℚ, inv = some h → 0 < cacheValue → h = cacheValue →
      handleInteraction playerCell cell cacheValue inv states =
        ⟨.craft, h * 2, none, setCacheValue states cell (h * 2)⟩) := by
  unfold handleInteraction
  rw [if_neg (by simp [hin])]
  constructor
  · split_ifs with h1 h2 h3 <;> simp_all
  · rintro h rfl hpos rfl
    rw [if_neg (by simp), if_pos ⟨by simp, hpos, rfl⟩]
    simp

/-- C4 witness: crafting a held 4 onto a cell of value 4 yields cell value
8, an empty hand, and the override `("0,0", 8)`. -/
theorem c4_craft_witness :
    handleInteraction ⟨0, 0⟩ ⟨0, 0⟩ 4 (some 4) [] =
      ⟨.craft, 8, none, [(cellKey ⟨0, 0⟩, 8)]⟩ := by
  have h := (c4_craft ⟨0, 0⟩ ⟨0, 0⟩ 4 (some 4) [] (by decide)).2 4 rfl
    (by norm_num) rfl
  rw [h]
  norm_num [setCacheValue, mapSet]

/-- C10: every successful pickup, craft or place preserves the sum of the
held value (empty hand counting as 0) and the clicked cell's value. -/
theorem c10_conservation (playerCell cell : Cell) (cacheValue : ℚ)
    (inv : Option ℚ) (states : List (String × ℚ))
    (hsucc : (handleInteraction playerCell cell cacheValue inv states).result = .pickup ∨
      (handleInteraction playerCell cell cacheValue inv states).result = .craft ∨
      (handleInteraction playerCell cell cacheValue inv states).result = .place) :
    (handleInteraction playerCell cell cacheValue inv states).playerInventory.getD 0 +
      (handleInteraction playerCell cell cacheValue inv states).cacheValue =
      inv.getD 0 + cacheValue := by
  unfold handleInteraction at hsucc ⊢
  split_ifs at hsucc ⊢ with h0 h1 h2 h3 <;> simp_all <;> ring

/-- C10 witness: a concrete pickup moves the value 4 to the hand with the
sum preserved. -/
theorem c10_conservation_witness :
    (handleInteraction ⟨0, 0⟩ ⟨1, 1⟩ 4 none []).playerInventory.getD 0 +
      (handleInteraction ⟨0, 0⟩ ⟨1, 1⟩ 4 none []).cacheValue =
      (none : Option ℚ).getD 0 + 4 :=
  c10_conservation ⟨0, 0⟩ ⟨1, 1⟩ 4 none [] (by left ; decide)

/-- C1: the effective-value lookup realized by the code (spawn gate of
`createCacheVisual` over `getCacheValue`) on a cell with no stored
override returns the deterministic initial value when the spawn roll
passes and the distinct "no cache here" result `none ≠ some 0` when it
does not, so a never-spawning cell is never reported as holding a token
value; when an override exists on a spawning cell it is returned. -/
theorem c1_effective_lookup (luck : Luck) (states : List (String × ℚ))
    (cell : Cell) :
    (states.lookup (cellKey cell) = none → shouldSpawnCache luck cell = true →
      effectiveCacheValue luck states cell =
        some (determineCacheValue luck cell)) ∧
    (shouldSpawnCache luck cell = false →
      effectiveCacheValue luck states cell = none) ∧
    (∀ v, states.lookup (cellKey cell) = some v →
      shouldSpawnCache luck cell = true →
      effectiveCacheValue luck states cell = some v) ∧
    (none : Option ℚ) ≠ some 0 := by
  refine ⟨fun hn hs => ?_, fun hs => ?_, fun v hv hs => ?_, by simp⟩
  · simp [effectiveCacheValue, hs, getCacheValue, hn]
  · simp [effectiveCacheValue, hs]
  · simp [effectiveCacheValue, hs, getCacheValue, hv]

/-- C1 witness: under a pseudo-random source pinned to 1/2 no cell spawns,
and the effective lookup reports no cache. -/
theorem c1_effective_lookup_witness :
    effectiveCacheValue (fun _ => (1 : ℚ)/2) [] ⟨0, 0⟩ = none :=
  (c1_effective_lookup (fun _ => (1 : ℚ)/2) [] ⟨0, 0⟩).2.1
    (by norm_num [shouldSpawnCache, CACHE_SPAWN_PROBABILITY])

/-- C5: the generator is a pure function of the coordinate: the spawn
decision is exactly `luck("i,j,spawn") < CACHE_SPAWN_PROBABILITY`, and the
initial value is exactly `2 ^ (1 + floor(luck("i,j,value") * 3))`, which
under the collaborator contract `luck ∈ [0,1)` is one of 2, 4, 8. -/
theorem c5_generator (luck : Luck) (cell : Cell)
    (h0 : 0 ≤ luck (valueKey cell)) (h1 : luck (valueKey cell) < 1) :
    (shouldSpawnCache luck cell = true ↔
      luck (spawnKey cell) < CACHE_SPAWN_PROBABILITY) ∧
    determineCacheValue luck cell =
      (2 : ℚ) ^ (1 + ⌊luck (valueKey cell) * 3⌋) ∧
    (determineCacheValue luck cell = 2 ∨ determineCacheValue luck cell = 4 ∨
      determineCacheValue luck cell = 8) := by
  refine ⟨by simp [shouldSpawnCache], rfl, ?_⟩
  have hl : (0 : ℤ) ≤ ⌊luck (valueKey cell) * 3⌋ :=
    Int.floor_nonneg.mpr (by positivity)
  have hu : ⌊luck (valueKey cell) * 3⌋ < 3 := by
    have h3 : luck (valueKey cell) * 3 < 3 := by nlinarith
    exact Int.floor_lt.mpr (by push_cast; linarith)
  have hmem : ⌊luck (valueKey cell) * 3⌋ = 0 ∨ ⌊luck (valueKey cell) * 3⌋ = 1 ∨
      ⌊luck (valueKey cell) * 3⌋ = 2 := by omega
  unfold determineCacheValue
  rcases hmem with h | h | h <;> rw [h] <;> norm_num

/-- C5 witness: a pseudo-random source pinned to 1/3 satisfies the
contract and produces a value in {2, 4, 8}. -/
theorem c5_generator_witness :
    determineCacheValue (fun _ => (1 : ℚ)/3) ⟨0, 0⟩ = 2 ∨
    determineCacheValue (fun _ => (1 : ℚ)/3) ⟨0, 0⟩ = 4 ∨
    determineCacheValue (fun _ => (1 : ℚ)/3) ⟨0, 0⟩ = 8 :=
  (c5_generator (fun _ => (1 : ℚ)/3) ⟨0, 0⟩ (by norm_num) (by norm_num)).2.2

/-- C9 counterexample: the craft that raises a cell to `TARGET_VALUE`
empties the hand, and the status panel's victory check
(`playerInventory >= TARGET_VALUE` on a non-null inventory) therefore
does not fire on that step: at a concrete craft of 32 + 32 = 64 with
`TARGET_VALUE = 64`, no victory is signaled. -/
theorem c9_counterexample :
    (handleInteraction ⟨0, 0⟩ ⟨0, 0⟩ 32 (some 32) []).result = .craft ∧
    TARGET_VALUE ≤ (handleInteraction ⟨0, 0⟩ ⟨0, 0⟩ 32 (some 32) []).cacheValue ∧
    victorySignal
      (handleInteraction ⟨0, 0⟩ ⟨0, 0⟩ 32 (some 32) []).playerInventory =
      false := by
  have h : handleInteraction ⟨0, 0⟩ ⟨0, 0⟩ 32 (some 32) [] =
      ⟨.craft, 64, none, [(cellKey ⟨0, 0⟩, 64)]⟩ := by
    unfold handleInteraction
    rw [if_neg (by decide), if_neg (by simp),
      if_pos ⟨by simp, by norm_num, rfl⟩]
    norm_num [setCacheValue, mapSet]
  refine ⟨by rw [h], by rw [h]; norm_num [TARGET_VALUE], by rw [h]; rfl⟩

/-- C9 amended: victory is signaled after a transition exactly when the
new held value is non-null and at least `TARGET_VALUE` (so a pickup of a
target-value token signals); craft and place empty the held slot and
therefore never signal victory on their own step. -/
theorem c9_victory (playerCell cell : Cell) (cacheValue : ℚ)
    (inv : Option ℚ) (states : List (String × ℚ)) :
    (victorySignal
        (handleInteraction playerCell cell cacheValue inv states).playerInventory =
          true ↔
      ∃ v, (handleInteraction playerCell cell cacheValue inv states).playerInventory =
          some v ∧ TARGET_VALUE ≤ v) ∧
    ((handleInteraction playerCell cell cacheValue inv states).result = .craft →
      victorySignal
        (handleInteraction playerCell cell cacheValue inv states).playerInventory =
        false) ∧
    ((handleInteraction playerCell cell cacheValue inv states).result = .place →
      victorySignal
        (handleInteraction playerCell cell cacheValue inv states).playerInventory =
        false) := by
  refine ⟨victorySignal_iff _, ?_, ?_⟩
  all_goals
    intro hres
    unfold handleInteraction at hres ⊢
    split_ifs at hres ⊢ <;> simp_all [victorySignal]

/-- C9 witness: a concrete pickup of a 64-value token signals victory,
and a concrete craft does not. -/
theorem c9_victory_witness :
    victorySignal (handleInteraction ⟨0, 0⟩ ⟨0, 0⟩ 64 none []).playerInventory =
      true ∧
    victorySignal
      (handleInteraction ⟨0, 0⟩ ⟨1, 0⟩ 2 (some 2) []).playerInventory = false := by
  constructor
  · refine (c9_victory ⟨0, 0⟩ ⟨0, 0⟩ 64 none []).1.mpr ⟨64, ?_, le_refl _⟩
    unfold handleInteraction
    rw [if_neg (by decide), if_pos ⟨rfl, by norm_num⟩]
  · refine (c9_victory ⟨0, 0⟩ ⟨1, 0⟩ 2 (some 2) []).2.1 ?_
    unfold handleInteraction
    rw [if_neg (by decide), if_neg (by simp), if_pos ⟨by simp, by norm_num, rfl⟩]

/-! ## Active cell manager lemmas -/

theorem mem_intRange {lo hi x : ℤ} : x ∈ intRange lo hi ↔ lo ≤ x ∧ x ≤ hi := by
  unfold intRange
  rw [List.mem_map]
  constructor
  · rintro ⟨n, hn, rfl⟩
    rw [List.mem_range] at hn
    omega
  · intro h
    refine ⟨(x - lo).toNat, ?_, ?_⟩
    · rw [List.mem_range]
      omega
    · omega

theorem mem_getVisibleCells {nw se c : Cell} :
    c ∈ getVisibleCells nw se ↔
      nw.i - VIEWPORT_RADIUS ≤ c.i ∧ c.i ≤ se.i + VIEWPORT_RADIUS ∧
      nw.j - VIEWPORT_RADIUS ≤ c.j ∧ c.j ≤ se.j + VIEWPORT_RADIUS := by
  simp only [getVisibleCells, List.mem_flatMap, List.mem_map]
  constructor
  · rintro ⟨i, hi, j, hj, rfl⟩
    rw [mem_intRange] at hi hj
    exact ⟨hi.1, hi.2, hj.1, hj.2⟩
  · intro ⟨h1, h2, h3, h4⟩
    exact ⟨c.i, mem_intRange.mpr ⟨h1, h2⟩, c.j, mem_intRange.mpr ⟨h3, h4⟩, rfl⟩

/-- Branch equation: the key is already active. -/
theorem createCacheVisual_of_has (luck : Luck) (active : List (String × Cell))
    (c : Cell) (h : active.any (fun kv => kv.1 == cellKey c) = true) :
    createCacheVisual luck active c = active := by
  unfold createCacheVisual
  rw [if_pos h]

/-- Branch equation: key not active, cell does not spawn. -/
theorem createCacheVisual_of_noSpawn (luck : Luck)
    (active : List (String × Cell)) (c : Cell)
    (h1 : active.any (fun kv => kv.1 == cellKey c) = false)
    (h2 : shouldSpawnCache luck c = false) :
    createCacheVisual luck active c = active := by
  unfold createCacheVisual
  rw [if_neg (by simp [h1]), if_pos (by simp [h2])]

/-- Branch equation: key not active, cell spawns: the entry is appended. -/
theorem createCacheVisual_of_adds (luck : Luck)
    (active : List (String × Cell)) (c : Cell)
    (h1 : active.any (fun kv => kv.1 == cellKey c) = false)
    (h2 : shouldSpawnCache luck c = true) :
    createCacheVisual luck active c = active ++ [(cellKey c, c)] := by
  unfold createCacheVisual
  rw [if_neg (by simp [h1]), if_neg (by simp [h2])]

/-- The creation step only ever appends. -/
theorem createCacheVisual_sub (luck : Luck) (active : List (String × Cell))
    (c : Cell) (kv : String × Cell) (h : kv ∈ active) :
    kv ∈ createCacheVisual luck active c := by
  cases hhas : active.any (fun kv => kv.1 == cellKey c) with
  | true => rwa [createCacheVisual_of_has luck active c hhas]
  | false =>
    cases hsp : shouldSpawnCache luck c with
    | false => rwa [createCacheVisual_of_noSpawn luck active c hhas hsp]
    | true =>
      rw [createCacheVisual_of_adds luck active c hhas hsp]
      exact List.mem_append_left _ h

/-- Entries already active survive the creation pass. -/
theorem mem_foldl_createCacheVisual (luck : Luck) (L : List Cell) :
    ∀ (acc : List (String × Cell)) (kv : String × Cell), kv ∈ acc →
      kv ∈ L.foldl (createCacheVisual luck) acc := by
  induction L with
  | nil => intro acc kv h; simpa using h
  | cons a t ih =>
    intro acc kv h
    rw [List.foldl_cons]
    exact ih _ kv (createCacheVisual_sub luck acc a kv h)

/-- Every entry after the creation pass is an old entry or a well-formed
entry of a spawning visited cell. -/
theorem foldl_createCacheVisual_mem (luck : Luck) (L : List Cell) :
    ∀ (acc : List (String × Cell)) (kv : String × Cell),
      kv ∈ L.foldl (createCacheVisual luck) acc →
      kv ∈ acc ∨ (kv.2 ∈ L ∧ shouldSpawnCache luck kv.2 = true ∧
        kv.1 = cellKey kv.2) := by
  induction L with
  | nil => intro acc kv h; left; simpa using h
  | cons a t ih =>
    intro acc kv h
    rw [List.foldl_cons] at h
    rcases ih _ kv h with h1 | h2
    · cases hhas : acc.any (fun kv => kv.1 == cellKey a) with
      | true => exact .inl (by rwa [createCacheVisual_of_has luck acc a hhas] at h1)
      | false =>
        cases hsp : shouldSpawnCache luck a with
        | false =>
          exact .inl (by rwa [createCacheVisual_of_noSpawn luck acc a hhas hsp] at h1)
        | true =>
          rw [createCacheVisual_of_adds luck acc a hhas hsp] at h1
          rcases List.mem_append.mp h1 with hold | hnew
          · exact .inl hold
          · rw [List.mem_singleton] at hnew
            subst hnew
            exact .inr ⟨List.mem_cons_self a t, hsp, rfl⟩
    · exact .inr ⟨List.mem_cons_of_mem a h2.1, h2.2⟩

/-- The creation pass preserves key/cell well-formedness of entries. -/
theorem createCacheVisual_wf (luck : Luck) (acc : List (String × Cell))
    (a : Cell) (hWF : ∀ kv ∈ acc, kv.1 = cellKey kv.2) :
    ∀ kv ∈ createCacheVisual luck acc a, kv.1 = cellKey kv.2 := by
  intro kv h
  cases hhas : acc.any (fun kv => kv.1 == cellKey a) with
  | true => exact hWF kv (by rwa [createCacheVisual_of_has luck acc a hhas] at h)
  | false =>
    cases hsp : shouldSpawnCache luck a with
    | false =>
      exact hWF kv (by rwa [createCacheVisual_of_noSpawn luck acc a hhas hsp] at h)
    | true =>
      rw [createCacheVisual_of_adds luck acc a hhas hsp] at h
      rcases List.mem_append.mp h with hold | hnew
      · exact hWF kv hold
      · rw [List.mem_singleton] at hnew
        subst hnew
        rfl

/-- Every spawning visited cell is represented after the creation pass. -/
theorem foldl_createCacheVisual_covers (luck : Luck) (L : List Cell) :
    ∀ (acc : List (String × Cell)), (∀ kv ∈ acc, kv.1 = cellKey kv.2) →
      ∀ c ∈ L, shouldSpawnCache luck c = true →
        (cellKey c, c) ∈ L.foldl (createCacheVisual luck) acc := by
  induction L with
  | nil => intro acc _ c hc; simp at hc
  | cons a t ih =>
    intro acc hWF c hc hs
    rw [List.foldl_cons]
    rcases List.mem_cons.mp hc with rfl | hct
    · -- the visited cell is the head: it is either already present or added
      have hmem : (cellKey c, c) ∈ createCacheVisual luck acc c := by
        cases hhas : acc.any (fun kv => kv.1 == cellKey c) with
        | true =>
          rw [createCacheVisual_of_has luck acc c hhas]
          rcases List.any_eq_true.mp hhas with ⟨kv, hkv, hk⟩
          have hkey : kv.1 = cellKey c := by simpa using hk
          have hcell : kv.2 = c :=
            cellKey_injective ((hWF kv hkv).symm.trans hkey)
          have hkveq : kv = (cellKey c, c) := Prod.ext hkey hcell
          rwa [hkveq] at hkv
        | false =>
          rw [createCacheVisual_of_adds luck acc c hhas hs]
          simp
      exact mem_foldl_createCacheVisual luck t _ _ hmem
    · exact ih _ (createCacheVisual_wf luck acc a hWF) c hct hs

/-- The creation pass is a no-op when every spawning visited cell already
has an active entry. -/
theorem foldl_createCacheVisual_fixed (luck : Luck) (L : List Cell) :
    ∀ (acc : List (String × Cell)),
      (∀ c ∈ L, shouldSpawnCache luck c = true →
        acc.any (fun kv => kv.1 == cellKey c) = true) →
      L.foldl (createCacheVisual luck) acc = acc := by
  induction L with
  | nil => intro acc _; rfl
  | cons a t ih =>
    intro acc hcov
    rw [List.foldl_cons]
    have hfix : createCacheVisual luck acc a = acc := by
      cases hhas : acc.any (fun kv => kv.1 == cellKey a) with
      | true => exact createCacheVisual_of_has luck acc a hhas
      | false =>
        cases hsp : shouldSpawnCache luck a with
        | false => exact createCacheVisual_of_noSpawn luck acc a hhas hsp
        | true =>
          exact absurd (hcov a (List.mem_cons_self a t) hsp) (by simp [hhas])
    rw [hfix]
    exact ih acc (fun c hc => hcov c (List.mem_cons_of_mem a hc))

/-- Unfolding equation for the active set after `regenerateCaches`. -/
theorem regenerateCaches_activeCaches (luck : Luck) (nw se : Cell)
    (st : ManagerState) :
    (regenerateCaches luck nw se st).activeCaches =
      (getVisibleCells nw se).foldl (createCacheVisual luck)
        (st.activeCaches.filter
          (fun kv => ((getVisibleCells nw se).map cellKey).contains kv.1)) :=
  rfl

/-- `regenerateCaches` never touches the override store. -/
theorem regenerateCaches_cacheStates (luck : Luck) (nw se : Cell)
    (st : ManagerState) :
    (regenerateCaches luck nw se st).cacheStates = st.cacheStates :=
  rfl

/-- C8 counterexample: the claimed equality between the active set and the
store's cache-exists set fails.  Under a pseudo-random source pinned to
1/2 no cell spawns; with an override stored for cell (0,0) the spec-side
set contains (0,0) (override present) and (0,0) is in the viewport range,
yet after the update no cell has an active representation, because
`createCacheVisual` gates only on the spawn roll and never consults the
override store. -/
theorem c8_counterexample :
    specCacheExists (fun _ => (1 : ℚ)/2) [("0,0", 4)] ⟨0, 0⟩ = true ∧
    (⟨0, 0⟩ : Cell) ∈ getVisibleCells ⟨0, 0⟩ ⟨0, 0⟩ ∧
    (regenerateCaches (fun _ => (1 : ℚ)/2) ⟨0, 0⟩ ⟨0, 0⟩
        ⟨[("0,0", 4)], []⟩).activeCaches = [] := by
  have hns : ∀ c : Cell, shouldSpawnCache (fun _ => (1 : ℚ)/2) c = false :=
    fun c => by norm_num [shouldSpawnCache, CACHE_SPAWN_PROBABILITY]
  refine ⟨by decide, mem_getVisibleCells.mpr (by decide), ?_⟩
  refine (regenerateCaches_activeCaches _ _ _ _).trans ?_
  rw [show (ManagerState.mk [("0,0", (4 : ℚ))] []).activeCaches =
      ([] : List (String × Cell)) from rfl,
    List.filter_nil]
  exact foldl_createCacheVisual_fixed (fun _ => (1 : ℚ)/2)
    (getVisibleCells ⟨0, 0⟩ ⟨0, 0⟩) []
    (fun c _ hs => False.elim (Bool.false_ne_true ((hns c).symm.trans hs)))

/-- C8 amended: after the viewport update for the range derived from the
corner cells, (1) the override store is untouched, (2) a cell has an
active representation exactly when it lies in the range and its spawn
roll passes (given that the incoming active set is well-formed: keys match
cells and all active cells spawn, as the manager itself maintains),
(3) the resulting active set is well-formed again, (4) rerunning the
update with the same viewport changes nothing, and (5) destroying a
representation never modifies the override store. -/
theorem c8_flyweight (luck : Luck) (nw se : Cell) (st : ManagerState)
    (hWF : ∀ kv ∈ st.activeCaches,
      kv.1 = cellKey kv.2 ∧ shouldSpawnCache luck kv.2 = true) :
    (regenerateCaches luck nw se st).cacheStates = st.cacheStates ∧
    (∀ c : Cell,
      (cellKey c, c) ∈ (regenerateCaches luck nw se st).activeCaches ↔
        c ∈ getVisibleCells nw se ∧ shouldSpawnCache luck c = true) ∧
    (∀ kv ∈ (regenerateCaches luck nw se st).activeCaches,
      kv.1 = cellKey kv.2 ∧ shouldSpawnCache luck kv.2 = true) ∧
    regenerateCaches luck nw se (regenerateCaches luck nw se st) =
      regenerateCaches luck nw se st ∧
    (∀ (st' : ManagerState) (c : Cell),
      (removeCacheVisual st' c).cacheStates = st'.cacheStates) := by
  set R := getVisibleCells nw se with hR
  set A0 := st.activeCaches.filter
    (fun kv => (R.map cellKey).contains kv.1) with hA0
  have hWF0 : ∀ kv ∈ A0, kv.1 = cellKey kv.2 ∧
      shouldSpawnCache luck kv.2 = true :=
    fun kv h => hWF kv (List.mem_filter.mp h).1
  have hres : (regenerateCaches luck nw se st).activeCaches =
      R.foldl (createCacheVisual luck) A0 := rfl
  have hstore : (regenerateCaches luck nw se st).cacheStates =
      st.cacheStates := rfl
  have hiff : ∀ c : Cell,
      (cellKey c, c) ∈ (regenerateCaches luck nw se st).activeCaches ↔
        c ∈ R ∧ shouldSpawnCache luck c = true := by
    intro c
    rw [hres]
    constructor
    · intro h
      rcases foldl_createCacheVisual_mem luck R A0 _ h with h1 | h2
      · obtain ⟨hmem, hkey⟩ := List.mem_filter.mp h1
        have hcon : cellKey c ∈ R.map cellKey := by
          simpa using hkey
        rcases List.mem_map.mp hcon with ⟨c', hc', hkc⟩
        have : c' = c := cellKey_injective hkc
        exact ⟨this ▸ hc', (hWF _ hmem).2⟩
      · exact ⟨h2.1, h2.2.1⟩
    · intro ⟨hcR, hs⟩
      exact foldl_createCacheVisual_covers luck R A0
        (fun kv h => (hWF0 kv h).1) c hcR hs
  have hwfres : ∀ kv ∈ (regenerateCaches luck nw se st).activeCaches,
      kv.1 = cellKey kv.2 ∧ shouldSpawnCache luck kv.2 = true := by
    intro kv h
    rw [hres] at h
    rcases foldl_createCacheVisual_mem luck R A0 kv h with h1 | h2
    · exact hWF0 kv h1
    · exact ⟨h2.2.2, h2.2.1⟩
  refine ⟨hstore, hiff, hwfres, ?_, fun st' c => ?_⟩
  · -- idempotence of a second run with the same viewport
    have hkeys : ∀ kv ∈ (regenerateCaches luck nw se st).activeCaches,
        (R.map cellKey).contains kv.1 = true := by
      intro kv h
      rw [hres] at h
      rcases foldl_createCacheVisual_mem luck R A0 kv h with h1 | h2
      · exact (List.mem_filter.mp h1).2
      · simp only [List.contains_eq_any_beq, List.any_eq_true]
        exact ⟨cellKey kv.2, List.mem_map_of_mem cellKey h2.1,
          by simp [h2.2.2]⟩
    have hfilter : (regenerateCaches luck nw se st).activeCaches.filter
        (fun kv => (R.map cellKey).contains kv.1) =
        (regenerateCaches luck nw se st).activeCaches :=
      List.filter_eq_self.mpr hkeys
    have hcov : ∀ c ∈ R, shouldSpawnCache luck c = true →
        ((regenerateCaches luck nw se st).activeCaches.any
          (fun kv => kv.1 == cellKey c)) = true := by
      intro c hc hs
      exact List.any_eq_true.mpr
        ⟨(cellKey c, c), (hiff c).mpr ⟨hc, hs⟩, by simp⟩
    have hsecond : regenerateCaches luck nw se (regenerateCaches luck nw se st) =
        ManagerState.mk (regenerateCaches luck nw se st).cacheStates
          (R.foldl (createCacheVisual luck)
            ((regenerateCaches luck nw se st).activeCaches.filter
              (fun kv => (R.map cellKey).contains kv.1))) := rfl
    rw [hsecond, hfilter, foldl_createCacheVisual_fixed luck R _ hcov]
  · unfold removeCacheVisual
    split <;> rfl

/-- C8 witness: with an always-spawning pseudo-random source and an empty
starting state, cell (0,0) gets an active representation. -/
theorem c8_flyweight_witness :
    (cellKey ⟨0, 0⟩, (⟨0, 0⟩ : Cell)) ∈
      (regenerateCaches (fun _ => (0 : ℚ)) ⟨0, 0⟩ ⟨0, 0⟩
        ⟨[], []⟩).activeCaches := by
  refine ((c8_flyweight (fun _ => (0 : ℚ)) ⟨0, 0⟩ ⟨0, 0⟩ ⟨[], []⟩
      (by simp)).2.1 ⟨0, 0⟩).mpr
    ⟨mem_getVisibleCells.mpr (by decide), ?_⟩
  norm_num [shouldSpawnCache, CACHE_SPAWN_PROBABILITY]

/-! ## Persistence lemmas -/

/-- `Map.set` with a key fresh for the whole map appends the entry. -/
theorem mapSetJS_fresh (m : List (JVal × JVal)) (k v : JVal)
    (h : ∀ e ∈ m, jsSameValueZero e.1 k = false) :
    mapSetJS m k v = m ++ [(k, v)] := by
  induction m with
  | nil => rfl
  | cons e t ih =>
    obtain ⟨k', v'⟩ := e
    unfold mapSetJS
    rw [if_neg (by simpa using h (k', v') (List.mem_cons_self _ _)),
      ih (fun e he => h e (List.mem_cons_of_mem _ he))]
    simp

/-- Refilling the `cacheStates` map from serialized entries with pairwise
distinct string keys appends them in order. -/
theorem setEntries_append (l : List (String × ℚ)) :
    ∀ (m : List (JVal × JVal)), (l.map Prod.fst).Nodup →
      (∀ kv ∈ l, ∀ e ∈ m, jsSameValueZero e.1 (.str kv.1) = false) →
      setEntries (l.map (fun kv =>
          JVal.arr [.str kv.1, .obj [("value", .num kv.2)]])) m =
        .ok (m ++ l.map (fun kv =>
          ((JVal.str kv.1), (JVal.obj [("value", JVal.num kv.2)])))) := by
  induction l with
  | nil => intro m _ _; simp [setEntries]
  | cons a t ih =>
    intro m hnd hfresh
    obtain ⟨k0, v0⟩ := a
    simp only [List.map_cons]
    unfold setEntries
    simp only [destructurePair]
    rw [show ([JVal.str k0, JVal.obj [("value", JVal.num v0)]].getD 0 .undefined)
        = JVal.str k0 from rfl,
      show ([JVal.str k0, JVal.obj [("value", JVal.num v0)]].getD 1 .undefined)
        = JVal.obj [("value", JVal.num v0)] from rfl]
    rw [mapSetJS_fresh m (JVal.str k0) _
      (hfresh (k0, v0) (List.mem_cons_self _ _))]
    rw [List.map_cons] at hnd
    have hk0 : k0 ∉ t.map Prod.fst := (List.nodup_cons.mp hnd).1
    rw [ih (m ++ [(JVal.str k0, JVal.obj [("value", JVal.num v0)])])
      (List.nodup_cons.mp hnd).2 ?_]
    · simp
    · intro kv hkv e he
      rcases List.mem_append.mp he with hm | hnew
      · exact hfresh kv (List.mem_cons_of_mem _ hkv) e hm
      · rw [List.mem_singleton] at hnew
        subst hnew
        have : k0 ≠ kv.1 := fun hEq =>
          hk0 (hEq ▸ List.mem_map_of_mem Prod.fst hkv)
        simpa [jsSameValueZero] using this

/-! ## Persistence claim theorems -/

/-- C3 (code bug): loading the parseable but malformed blob
`{"playerCell":{"i":5,"j":6},"playerInventory":null}` — valid JSON with
no `cacheStates` field — returns `false` (the failure signal), but only
after the player cell and held token have been overwritten and the
override store cleared: the rejection is not wholesale and the prior
state is lost.  A blob `JSON.parse` throws on is, by contrast, rejected
with the state intact. -/
theorem c3_partial_load :
    (loadGameState
        (.parsed (.obj [("playerCell", .obj [("i", .num 5), ("j", .num 6)]),
          ("playerInventory", .null)]))
        ⟨.obj [("i", .num 7), ("j", .num 7)], .num 4,
          [(.str "7,7", .obj [("value", .num 2)])]⟩).1 = false ∧
    (loadGameState
        (.parsed (.obj [("playerCell", .obj [("i", .num 5), ("j", .num 6)]),
          ("playerInventory", .null)]))
        ⟨.obj [("i", .num 7), ("j", .num 7)], .num 4,
          [(.str "7,7", .obj [("value", .num 2)])]⟩).2 =
      ⟨.obj [("i", .num 5), ("j", .num 6)], .null, []⟩ ∧
    ([(JVal.str "7,7", JVal.obj [("value", JVal.num 2)])] ≠
      ([] : List (JVal × JVal))) ∧
    (JVal.obj [("i", .num 7), ("j", .num 7)] ≠
      JVal.obj [("i", .num 5), ("j", .num 6)]) ∧
    loadGameState .unparseable
        ⟨.obj [("i", .num 7), ("j", .num 7)], .num 4,
          [(.str "7,7", .obj [("value", .num 2)])]⟩ =
      (false, ⟨.obj [("i", .num 7), ("j", .num 7)], .num 4,
        [(.str "7,7", .obj [("value", .num 2)])]⟩) := by
  refine ⟨rfl, rfl, by simp, ?_, rfl⟩
  intro h
  have hfields := congrArg (fun v => match v with
    | JVal.obj fields => fields
    | _ => []) h
  simp at hfields

/-- C7: serializing a well-typed store state (integer player cell,
optional held token, string-keyed override entries with pairwise distinct
keys) and loading the result back succeeds and restores exactly the
image of that state in the globals, whatever state was there before. -/
theorem c7_roundtrip (pc : Cell) (inv : Option ℚ)
    (states : List (String × ℚ)) (hnd : (states.map Prod.fst).Nodup)
    (st : JSGameState) :
    loadGameState (.parsed (serializeGameState pc inv states)) st =
      (true, toJSState pc inv states) := by
  have hset := setEntries_append states [] hnd (by simp)
  cases inv with
  | none =>
    simp only [serializeGameState, loadGameState, jsGetField, List.lookup,
      toJSState]
    simp only [beq_self_eq_true, if_true, reduceCtorEq]
    simp [hset, jsCellToLatLng, jsGetField, jsToNumber, List.lookup]
  | some q =>
    simp only [serializeGameState, loadGameState, jsGetField, List.lookup,
      toJSState]
    simp only [beq_self_eq_true, if_true, reduceCtorEq]
    simp [hset, jsCellToLatLng, jsGetField, jsToNumber, List.lookup]

/-- C7 witness: a concrete state with a held token and two overrides
round-trips exactly. -/
theorem c7_roundtrip_witness :
    loadGameState (.parsed (serializeGameState ⟨1, -2⟩ (some 8)
        [("0,0", 0), ("3,4", 16)])) ⟨.null, .null, []⟩ =
      (true, toJSState ⟨1, -2⟩ (some 8) [("0,0", 0), ("3,4", 16)]) :=
  c7_roundtrip ⟨1, -2⟩ (some 8) [("0,0", 0), ("3,4", 16)] (by simp)
    ⟨.null, .null, []⟩

end Geocache
